import Mathlib

/-
Verification development for the Gunpla Guide filter / recommendation core
(src/js/filter.js, src/js/recommendation.js).

JavaScript strings are modelled as Lean `String` (with `String.data` giving
the character list) wherever character-level operations (split, join,
substring search) matter.  JavaScript numbers occurring in this core are
modelled as `Int` for integral values with `Option Int` where `none`
denotes `NaN`; the numeric literals of the weight table are binary-exact,
so weights and score arithmetic are modelled over `ℚ`.  `undefined` is
modelled by `Option`.
-/

set_option autoImplicit false
set_option maxHeartbeats 1000000

/-- A JavaScript runtime value as used for product attributes and filter
selection elements: a string, an (integral) number, `NaN`, a boolean, or an
array of values. -/
inductive JSVal where
  | str (s : String)
  | num (n : Int)
  | nan
  | boolv (b : Bool)
  | arr (l : List JSVal)
deriving Repr

/-- JavaScript strict equality `===` on modelled values.  `NaN === NaN` is
false; two arrays compare by reference, so two separately constructed
arrays are never strictly equal (we never compare an array with itself). -/
def jsEq : JSVal → JSVal → Bool
  | .str a, .str b => a == b
  | .num a, .num b => a == b
  | .boolv a, .boolv b => a == b
  | _, _ => false

/-- Decimal digit character for a digit value below ten. -/
def digitChar : Nat → Char
  | 0 => '0'
  | 1 => '1'
  | 2 => '2'
  | 3 => '3'
  | 4 => '4'
  | 5 => '5'
  | 6 => '6'
  | 7 => '7'
  | 8 => '8'
  | _ => '9'

/-- Fuel-bounded decimal rendering worker: any fuel above the argument
suffices, so the fuel-exhausted arm is unreachable in `natToChars`. -/
def natToCharsF : Nat → Nat → List Char
  | 0, _ => []
  | fuel + 1, n =>
    if n < 10 then [digitChar n]
    else natToCharsF fuel (n / 10) ++ [digitChar (n % 10)]

/-- Decimal rendering of a natural number, most significant digit first
(the model of JavaScript number-to-string conversion for naturals). -/
def natToChars (n : Nat) : List Char :=
  natToCharsF (n + 1) n

/-- Decimal rendering of an integer (model of JavaScript template-literal
stringification of an integral number). -/
def intToChars (i : Int) : List Char :=
  if i < 0 then '-' :: natToChars i.natAbs else natToChars i.toNat

/-- Left fold accumulating decimal digits into a natural number. -/
def parseNatChars (l : List Char) : Nat :=
  l.foldl (fun a c => a * 10 + (c.toNat - 48)) 0

/-- Model of the JavaScript `Number(string)` conversion restricted to the
strings this core produces: the empty string converts to `0` and a
non-empty all-digit string to its decimal value, exactly as in
JavaScript.  Everything else is mapped to `NaN` (`none`); real JavaScript
additionally accepts signs, decimals, exponents, hex/octal/binary
prefixes, `Infinity` and surrounding whitespace, so the `NaN` arm agrees
with JavaScript only on strings containing a character outside
`jsNumericLitChar` — theorems relying on the `NaN` arm for non-literal
inputs carry that hypothesis. -/
def jsNumberOfChars (l : List Char) : Option Int :=
  if l.isEmpty then some 0
  else if l.all (fun c => c.isDigit) then some (Int.ofNat (parseNatChars l))
  else none

/-- Characters that can occur in a string the JavaScript `Number`
conversion accepts (converts to something other than `NaN`): decimal
digits, hex digits and the prefixes `x`/`o`/`b`, sign, decimal point,
exponent marker, the letters of `Infinity` — plus, conservatively, every
character outside printable ASCII (covering the whitespace `Number`
trims).  A string containing a printable ASCII character outside this set
always converts to `NaN` in JavaScript. -/
def jsNumericLitChar (c : Char) : Bool :=
  c.isDigit
  || decide (c.toNat < 33)
  || decide (126 < c.toNat)
  || ['.', '+', '-', 'e', 'E', 'x', 'X', 'o', 'O', 'b', 'B', 'a', 'A', 'c', 'C',
      'd', 'D', 'f', 'F', 'I', 'n', 'i', 't', 'y'].contains c

/-- Does `pat` occur at the head of `hay`? -/
def leadMatch : List Char → List Char → Bool
  | _, [] => true
  | [], _ :: _ => false
  | a :: as, b :: bs => a == b && leadMatch as bs

/-- Model of JavaScript `String.prototype.includes`: does `pat` occur
contiguously anywhere in `hay`? -/
def containsSeq : List Char → List Char → Bool
  | [], pat => leadMatch [] pat
  | c :: t, pat => leadMatch (c :: t) pat || containsSeq t pat

/-- Model of JavaScript `String.prototype.split` with a single-character
separator: always returns at least one (possibly empty) segment. -/
def splitOnChar (sep : Char) : List Char → List (List Char)
  | [] => [[]]
  | c :: rest =>
    match splitOnChar sep rest with
    | [] => [[c]]
    | g :: gs => if c == sep then [] :: g :: gs else (c :: g) :: gs

/-- Model of JavaScript `Array.prototype.join` with a one-character
separator, at the character-list level. -/
def joinChar (sep : Char) : List (List Char) → List Char
  | [] => []
  | [g] => g
  | g :: gs => g ++ sep :: joinChar sep gs

mutual

/-- Model of JavaScript stringification of a value as it occurs inside
`values.join(',')` and in template literals: strings stay themselves,
numbers render in decimal, `NaN` renders as "NaN", booleans as
"true"/"false", arrays join their elements with commas. -/
def jsValChars : JSVal → List Char
  | .str s => s.data
  | .num n => intToChars n
  | .nan => "NaN".data
  | .boolv b => if b then "true".data else "false".data
  | .arr l => jsArrChars l

/-- Stringification of an array of values, comma separated. -/
def jsArrChars : List JSVal → List Char
  | [] => []
  | [v] => jsValChars v
  | v :: rest => jsValChars v ++ ',' :: jsArrChars rest

end

/-- A taxonomy category as consumed by filter.js: an id and a type string
(the code probes the type with string comparisons against "range" and
"boolean"; every other type takes the enum/multi-enum path). -/
structure Category where
  id : String
  type : String
deriving Repr, DecidableEq

/-- An active selection for one category as stored in `activeFilters`:
either a JavaScript array of chosen values or a `{min, max}` range object.
Range bounds are numbers, where `none` denotes `NaN`. -/
inductive Selection where
  | vals (l : List JSVal)
  | range (min max : Option Int)
deriving Repr

/-- The mutable state of the filter module: the lower-cased search query
and the `activeFilters` object, modelled as an insertion-ordered
association list (JavaScript object key order). -/
structure FilterState where
  searchQuery : String
  activeFilters : List (String × Selection)
deriving Repr

/-- JavaScript object property read `m[k]`. -/
def getKey (m : List (String × Selection)) (k : String) : Option Selection :=
  (m.find? (fun e => e.1 == k)).map (fun e => e.2)

/-- JavaScript object property write `m[k] = v`: an existing key keeps its
position and gets the new value, a new key is appended. -/
def setKey (m : List (String × Selection)) (k : String) (v : Selection) :
    List (String × Selection) :=
  if m.any (fun e => e.1 == k) then
    m.map (fun e => if e.1 == k then (k, v) else e)
  else m ++ [(k, v)]

/-- JavaScript `delete m[k]`. -/
def delKey (m : List (String × Selection)) (k : String) :
    List (String × Selection) :=
  m.filter (fun e => e.1 != k)

/-- Whitespace trim followed by ASCII lower-casing, the model of
`query.trim().toLowerCase()` in `setSearchQuery`. -/
def jsTrimLower (s : String) : String :=
  String.mk ((((s.data.dropWhile (fun c => c.isWhitespace)).reverse.dropWhile
      (fun c => c.isWhitespace)).reverse).map (fun c => c.toLower))

/-- Lower-casing alone, the model of `.toLowerCase()` on a search field. -/
def lowerStr (s : String) : String :=
  String.mk (s.data.map (fun c => c.toLower))

/-- filter.js `setSearchQuery`: stores the trimmed, lower-cased query. -/
def setSearchQuery (s : FilterState) (query : String) : FilterState :=
  { s with searchQuery := jsTrimLower query }

/-- filter.js `setFilter` (lines 67-86).  When the stored selection for the
category is a range object, the JavaScript code would call `.includes` or
`.filter` on it and throw a `TypeError` before mutating anything; this is
modelled by returning `none` (state unchanged). -/
def setFilter (s : FilterState) (categoryId : String) (value : JSVal)
    (isActive : Bool) : Option FilterState :=
  let cur : Selection :=
    match getKey s.activeFilters categoryId with
    | none => Selection.vals []
    | some sel => sel
  match cur with
  | .range _ _ => none
  | .vals l =>
    if isActive then
      let l2 := if l.any (fun v => jsEq v value) then l else l ++ [value]
      some { s with activeFilters := setKey s.activeFilters categoryId (.vals l2) }
    else
      let l2 := l.filter (fun v => !(jsEq v value))
      if l2.length == 0 then
        some { s with activeFilters := delKey s.activeFilters categoryId }
      else
        some { s with activeFilters := setKey s.activeFilters categoryId (.vals l2) }

/-- filter.js `toggleFilter` (lines 91-94): probes membership with
`activeFilters[categoryId]?.includes(value)` (a `TypeError`, modelled as
`none`, when the stored selection is a range object) and flips it. -/
def toggleFilter (s : FilterState) (categoryId : String) (value : JSVal) :
    Option FilterState :=
  match getKey s.activeFilters categoryId with
  | some (.range _ _) => none
  | some (.vals l) => setFilter s categoryId value (!(l.any (fun v => jsEq v value)))
  | none => setFilter s categoryId value true

/-- filter.js `setRangeFilter` (lines 99-104). -/
def setRangeFilter (s : FilterState) (categoryId : String)
    (min max : Option Int) : FilterState :=
  { s with activeFilters := setKey s.activeFilters categoryId (.range min max) }

/-- filter.js `removeFilter` (lines 109-118): with a value it delegates to
`setFilter(categoryId, value, false)`, without one it deletes the key. -/
def removeFilter (s : FilterState) (categoryId : String)
    (value : Option JSVal) : Option FilterState :=
  match value with
  | some v => setFilter s categoryId v false
  | none => some { s with activeFilters := delKey s.activeFilters categoryId }

/-- filter.js `clearAllFilters` (lines 123-146), state part only. -/
def clearAllFilters (_s : FilterState) : FilterState :=
  { searchQuery := "", activeFilters := [] }

/-- A product record.  The fields used by the text search are explicit;
`attrs` models the remaining own properties reached by the dynamic access
`product[categoryId]`, and `filterData` the nested `filterData` object.
`name` holds the display name already resolved by `I18n.getName`. -/
structure Product where
  name : String
  id : String
  modelNumber : Option String
  grade : String
  series : String
  attrs : List (String × JSVal)
  filterData : List (String × JSVal)

/-- Dynamic property lookup on a plain object modelled as an association
list. -/
def lookupVal (m : List (String × JSVal)) (k : String) : Option JSVal :=
  (m.find? (fun e => e.1 == k)).map (fun e => e.2)

/-- The dynamic access `product[categoryId]`: the named search fields are
own properties reachable this way; everything else goes through `attrs`. -/
def productGet (p : Product) (k : String) : Option JSVal :=
  if k == "name" then some (.str p.name)
  else if k == "id" then some (.str p.id)
  else if k == "modelNumber" then p.modelNumber.map (fun s => .str s)
  else if k == "grade" then some (.str p.grade)
  else if k == "series" then some (.str p.series)
  else lookupVal p.attrs k

/-- The value resolution `product[categoryId] ?? product.filterData?.[categoryId]`
shared by filter.js line 171 and recommendation.js line 41. -/
def productValue (p : Product) (c : String) : Option JSVal :=
  match productGet p c with
  | some v => some v
  | none => lookupVal p.filterData c

/-- Numeric coercion applied by the JavaScript relational operators to a
product value: numbers stay, `NaN` stays `NaN`, booleans become 0/1,
strings go through `Number`, arrays (used only as enum value lists here)
coerce to `NaN` except the empty array, which coerces to 0. -/
def toNumber : JSVal → Option Int
  | .num n => some n
  | .nan => none
  | .boolv b => some (if b then 1 else 0)
  | .str s => jsNumberOfChars s.data
  | .arr [] => some 0
  | .arr (_ :: _) => none

/-- JavaScript `productValue < bound` where the left side may be
`undefined` (which coerces to `NaN`, making the comparison false) and the
bound may be `NaN`. -/
def jsLtB (pv : Option JSVal) (bound : Option Int) : Bool :=
  match pv, bound with
  | some v, some b =>
    match toNumber v with
    | some n => n < b
    | none => false
  | _, _ => false

/-- JavaScript `productValue > bound`, same coercions as `jsLtB`. -/
def jsGtB (pv : Option JSVal) (bound : Option Int) : Bool :=
  match pv, bound with
  | some v, some b =>
    match toNumber v with
    | some n => b < n
    | none => false
  | _, _ => false

/-- The five text-search fields of filter.js lines 154-160, each
lower-cased. -/
def searchFields (p : Product) : List String :=
  [p.name, p.id, p.modelNumber.getD "", p.grade, p.series].map lowerStr

/-- Query matching of filter.js lines 153-164: some lower-cased field
contains the query as a substring. -/
def searchMatches (p : Product) (q : String) : Bool :=
  (searchFields p).any (fun f => containsSeq f.data q.data)

/-- One iteration of the category loop of `matchesFilters` (filter.js
lines 167-205); `true` means the category does not exclude the product.
A range-typed category checks `{min, max}` objects only (an array
selection has `values.min === undefined` and is skipped); the bound
comparisons are false when the product value is missing (`undefined`
coerces to `NaN`), so a missing value passes.  A boolean-typed category
compares `values[0]` strictly.  Every other type takes the enum path:
array product values match on non-empty overlap, scalars on membership. -/
def entryMatches (tax : List Category) (p : Product) (c : String)
    (sel : Selection) : Bool :=
  match tax.find? (fun cat => cat.id == c) with
  | none => true
  | some cat =>
    let pv := productValue p c
    if cat.type == "range" then
      match sel with
      | .vals _ => true
      | .range mn mx => !(jsLtB pv mn || jsGtB pv mx)
    else if cat.type == "boolean" then
      match sel with
      | .range _ _ => true
      | .vals l =>
        match l.head? with
        | none => true
        | some f =>
          match pv with
          | none => false
          | some v => jsEq v f
    else
      match sel with
      | .range _ _ => true
      | .vals l =>
        if l.length > 0 then
          match pv with
          | some (.arr pvl) => pvl.any (fun v => l.any (fun w => jsEq w v))
          | some v => l.any (fun w => jsEq w v)
          | none => false
        else true

/-- filter.js `matchesFilters` (lines 151-208): the non-empty search query
must match some search field (short-circuiting before the category loop),
and every active category must not exclude the product. -/
def matchesFilters (tax : List Category) (s : FilterState) (p : Product) :
    Bool :=
  (if s.searchQuery == "" then true else searchMatches p s.searchQuery)
  && s.activeFilters.all (fun e => entryMatches tax p e.1 e.2)

/-- Rendering of a range bound inside the template literal
`${values.min}-${values.max}`: `NaN` prints as "NaN". -/
def numChars : Option Int → List Char
  | none => "NaN".data
  | some i => intToChars i

/-- The parameter contributed by one active filter in filter.js
`updateURL` (lines 434-440): a non-empty array selection as its
comma-join, an empty one not at all, a range selection as
`min-max` (the range guard `values.min !== undefined` always holds for a
stored range object, `NaN` included). -/
def serEntry (e : String × Selection) : Option (String × String) :=
  match e.2 with
  | .vals l =>
    if l.length > 0 then some (e.1, String.mk (jsArrChars l)) else none
  | .range mn mx =>
    some (e.1, String.mk (numChars mn ++ '-' :: numChars mx))

/-- The query-parameter list built by filter.js `updateURL` (lines
427-447): `q` first when the query is non-empty, then each active filter
in insertion order.  `URLSearchParams` percent-encoding round-trips every
string, so the parameter list itself is the model of the serialized URL. -/
def serializeFilters (s : FilterState) : List (String × String) :=
  (if s.searchQuery == "" then [] else [("q", s.searchQuery)])
  ++ s.activeFilters.filterMap serEntry

/-- One step of the `params.forEach` loop of filter.js `restoreFromURL`
(lines 461-473): skip `q`; drop keys unknown to the taxonomy; for a
range-typed category whose value contains a dash, split on dashes and
convert the first two segments with `Number` (a dash-containing value
always has at least two segments, so the fallback arms are unreachable);
otherwise store the comma-split of the value. -/
def restoreStep (tax : List Category) (s : FilterState)
    (e : String × String) : FilterState :=
  if e.1 == "q" then s
  else
    match tax.find? (fun cat => cat.id == e.1) with
    | none => s
    | some cat =>
      if cat.type == "range" && (e.2.data.contains '-') then
        let sel : Selection :=
          match (splitOnChar '-' e.2.data).map jsNumberOfChars with
          | a :: b :: _ => .range a b
          | [a] => .range a none
          | [] => .range none none
        { s with activeFilters := setKey s.activeFilters e.1 sel }
      else
        let sel : Selection :=
          .vals ((splitOnChar ',' e.2.data).map (fun cs => .str (String.mk cs)))
        { s with activeFilters := setKey s.activeFilters e.1 sel }

/-- filter.js `restoreFromURL` (lines 452-474): restore the raw (not
lower-cased) `q` parameter when present, then fold the remaining
parameters into `activeFilters`. -/
def restoreFromURL (tax : List Category) (s : FilterState)
    (params : List (String × String)) : FilterState :=
  let s1 :=
    match params.find? (fun e => e.1 == "q") with
    | some e => { s with searchQuery := e.2 }
    | none => s
  params.foldl (restoreStep tax) s1

/-- The weight table of recommendation.js lines 9-21. -/
def categoryWeights : List (String × ℚ) :=
  [("difficulty", 3), ("mobility", 5/2), ("grade", 2), ("recommendedUser", 5/2),
   ("weaponCount", 3/2), ("frameType", 3/2), ("transformation", 3/2),
   ("colorSeparation", 1), ("sealDependency", 1), ("clearParts", 1/2),
   ("coatingParts", 1/2)]

/-- `categoryWeights[categoryId] || 1` (recommendation.js line 38): a
missing entry — and a falsy stored weight — gives 1. -/
def weightOf (c : String) : ℚ :=
  match (categoryWeights.find? (fun e => e.1 == c)).map (fun e => e.2) with
  | some w => if w == 0 then 1 else w
  | none => 1

/-- JavaScript `productValue >= bound` with numeric coercion of the
product value; false when either side is `NaN`. -/
def jsGeB (v : JSVal) (bound : Option Int) : Bool :=
  match toNumber v, bound with
  | some n, some b => b ≤ n
  | _, _ => false

/-- JavaScript `productValue <= bound` with numeric coercion of the
product value; false when either side is `NaN`. -/
def jsLeB (v : JSVal) (bound : Option Int) : Bool :=
  match toNumber v, bound with
  | some n, some b => n ≤ b
  | _, _ => false

/-- The matched-weight contribution of one category in
`calculateMatchScore` (recommendation.js lines 41-61).  A product with no
value for the category contributes nothing (the `continue` on line 43).
An array selection against an array product value earns
`weight * (overlap.length / filterValues.length)` where `overlap` keeps
the product entries that occur in the selection; against a scalar it earns
the full weight on membership.  A range selection earns the full weight
when the value lies within both bounds.  (A scalar selection, the final
`else if` of the source, cannot occur: `activeFilters` only ever stores
arrays and range objects.) -/
def credit (p : Product) (c : String) (sel : Selection) (weight : ℚ) : ℚ :=
  match productValue p c with
  | none => 0
  | some pv =>
    match sel with
    | .vals fl =>
      match pv with
      | .arr pvl =>
        let overlap := pvl.filter (fun v => fl.any (fun w => jsEq w v))
        weight * ((overlap.length : ℚ) / (fl.length : ℚ))
      | v => if fl.any (fun w => jsEq w v) then weight else 0
    | .range mn mx =>
      if jsGeB pv mn && jsLeB pv mx then weight else 0

/-- The `totalWeight` accumulator of `calculateMatchScore`: every active
category contributes its weight, whether or not the product has a value
for it (recommendation.js line 39 runs before the line 43 `continue`). -/
def totalWeight (filters : List (String × Selection)) : ℚ :=
  (filters.map (fun e => weightOf e.1)).sum

/-- The `matchedWeight` accumulator of `calculateMatchScore`. -/
def matchedWeight (p : Product) (filters : List (String × Selection)) : ℚ :=
  (filters.map (fun e => credit p e.1 e.2 (weightOf e.1))).sum

/-- JavaScript `Math.round` on an exact rational: round half toward
positive infinity. -/
def mathRound (q : ℚ) : ℤ :=
  ⌊q + 1/2⌋

/-- recommendation.js `calculateMatchScore` (lines 29-67): 0 with no
active filters, 0 when the total weight is 0, otherwise
`Math.round((matchedWeight / totalWeight) * 100)`. -/
def calculateMatchScore (p : Product) (filters : List (String × Selection)) :
    ℤ :=
  if filters.length == 0 then 0
  else if totalWeight filters == 0 then 0
  else mathRound (matchedWeight p filters / totalWeight filters * 100)

mutual

/-- Structural equality of modelled JavaScript values (unlike `jsEq`, this
is plain mathematical equality: `NaN` equals `NaN`, arrays compare
elementwise).  Used to state well-formedness side conditions. -/
def valEqB : JSVal → JSVal → Bool
  | .str a, .str b => a == b
  | .num a, .num b => a == b
  | .nan, .nan => true
  | .boolv a, .boolv b => a == b
  | .arr a, .arr b => valListEqB a b
  | _, _ => false

/-- Elementwise structural equality of value lists. -/
def valListEqB : List JSVal → List JSVal → Bool
  | [], [] => true
  | a :: as, b :: bs => valEqB a b && valListEqB as bs
  | _, _ => false

end

/-- Are the values of a list pairwise structurally distinct? -/
def distinctValsB : List JSVal → Bool
  | [] => true
  | v :: rest => !(rest.any (fun w => valEqB w v)) && distinctValsB rest

/-- Well-formedness of one score input entry for the bounded-score
statement: any array-valued product attribute for the category has
pairwise distinct entries, and an array selection is non-empty (which is
how `activeFilters` stores them — an empty array would make the JavaScript
division `overlap.length / filterValues.length` produce `NaN`). -/
def entryOkB (p : Product) (e : String × Selection) : Bool :=
  (match productValue p e.1 with
   | some (.arr l) => distinctValsB l
   | _ => true)
  &&
  (match e.2 with
   | .vals l => !l.isEmpty
   | .range _ _ => true)

/-- URL-representability of one active filter entry under a taxonomy: the
key differs from the reserved `q` and is found in the taxonomy; a range
selection sits on a range-typed category and carries nonnegative
(integral) bounds; an array selection sits on a non-range category and is
a non-empty list of strings containing no comma. -/
def goodEntryB (tax : List Category) (e : String × Selection) : Bool :=
  (e.1 != "q")
  &&
  (match tax.find? (fun cat => cat.id == e.1), e.2 with
   | some cat, .range (some a) (some b) =>
     cat.type == "range" && decide (0 ≤ a) && decide (0 ≤ b)
   | some cat, .vals l =>
     cat.type != "range" && !l.isEmpty
       && l.all (fun v =>
            match v with
            | .str s => !(s.data.contains ',')
            | _ => false)
   | _, _ => false)

/-- One entry of `activeFilters` carries at least one active value: an
array selection is non-empty (a range selection always carries a value). -/
def selOkB (e : String × Selection) : Bool :=
  match e.2 with
  | .vals l => !l.isEmpty
  | .range _ _ => true

/-- The selections invariant of the filter state: every stored array
selection is non-empty. -/
def stateInvB (s : FilterState) : Bool :=
  s.activeFilters.all selOkB

/-- The filter states reachable from the initial empty state through the
public mutation operations of filter.js (partial operations count only
when they complete normally, i.e. return `some`). -/
inductive Reachable : FilterState → Prop where
  | empty : Reachable ⟨"", []⟩
  | search (s : FilterState) (q : String) :
      Reachable s → Reachable (setSearchQuery s q)
  | set (s : FilterState) (c : String) (v : JSVal) (b : Bool)
      (s2 : FilterState) :
      Reachable s → setFilter s c v b = some s2 → Reachable s2
  | toggle (s : FilterState) (c : String) (v : JSVal) (s2 : FilterState) :
      Reachable s → toggleFilter s c v = some s2 → Reachable s2
  | setRange (s : FilterState) (c : String) (mn mx : Option Int) :
      Reachable s → Reachable (setRangeFilter s c mn mx)
  | remove (s : FilterState) (c : String) (v : Option JSVal)
      (s2 : FilterState) :
      Reachable s → removeFilter s c v = some s2 → Reachable s2
  | clear (s : FilterState) : Reachable s → Reachable (clearAllFilters s)
  | restore (tax : List Category) (s : FilterState)
      (params : List (String × String)) :
      Reachable s → Reachable (restoreFromURL tax s params)

/-- A range-only taxonomy with the `mobility` category, used in concrete
scenarios. -/
def taxMobility : List Category := [⟨"mobility", "range"⟩]

/-- A filter state whose single active filter is the range 3..5 on
`mobility`. -/
def stMobilityRange : FilterState :=
  ⟨"", [("mobility", Selection.range (some 3) (some 5))]⟩

/-- A product with no `mobility` value anywhere (neither a top-level field
nor a `filterData` entry). -/
def prodNoMobility : Product :=
  ⟨"Strike Gundam", "sd-ex-001", none, "SD", "seed", [],
    [("difficulty", JSVal.str "beginner")]⟩

/-- A product whose `filterData.mobility` is 4. -/
def prodMobility4 : Product :=
  ⟨"Gundam Aerial", "hg-aerial", none, "HG", "witch", [],
    [("mobility", JSVal.num 4)]⟩

/-- A product carrying only a `difficulty` value. -/
def prodOnlyDifficulty : Product :=
  ⟨"Gundam Barbatos", "hg-barbatos", none, "HG", "ibo", [],
    [("difficulty", JSVal.str "beginner")]⟩

/-- Active filters selecting difficulty `beginner` and mobility 3..5. -/
def filtersDiffMob : List (String × Selection) :=
  [("difficulty", Selection.vals [JSVal.str "beginner"]),
   ("mobility", Selection.range (some 3) (some 5))]

/-- Active filters selecting only difficulty `beginner`. -/
def filtersDiffOnly : List (String × Selection) :=
  [("difficulty", Selection.vals [JSVal.str "beginner"])]

/-- A product whose `weaponCount` array repeats the value `many`. -/
def prodDupWeapons : Product :=
  ⟨"Gundam Heavyarms", "hg-heavyarms", none, "HG", "wing", [],
    [("weaponCount", JSVal.arr [JSVal.str "many", JSVal.str "many"])]⟩

/-- Active filters selecting `weaponCount = many`. -/
def filtersWeaponMany : List (String × Selection) :=
  [("weaponCount", Selection.vals [JSVal.str "many"])]

/-- A product whose `weaponCount` array holds two distinct values. -/
def prodOkWeapons : Product :=
  ⟨"Gundam Deathscythe", "hg-deathscythe", none, "HG", "wing", [],
    [("weaponCount", JSVal.arr [JSVal.str "few", JSVal.str "standard"])]⟩

/-- The product of the multi-value overlap example: `filterData` maps
`weaponCount` to the array `[many, standard]`. -/
def prodOverlap : Product :=
  ⟨"Gundam Exia", "hg-exia", none, "HG", "oo", [],
    [("weaponCount", JSVal.arr [JSVal.str "many", JSVal.str "standard"])]⟩

/-- The selection of the overlap example: `[standard, few]`. -/
def selOverlap : List JSVal := [JSVal.str "standard", JSVal.str "few"]

/-- Scenario product A: difficulty `beginner`, mobility 4. -/
def prodScenarioA : Product :=
  ⟨"RX-93 Nu Gundam", "hg-nu", none, "HG", "cca", [],
    [("difficulty", JSVal.str "beginner"), ("mobility", JSVal.num 4)]⟩

/-- Scenario product B: difficulty `advanced`, mobility 4. -/
def prodScenarioB : Product :=
  ⟨"Sazabi", "hg-sazabi", none, "HG", "cca", [],
    [("difficulty", JSVal.str "advanced"), ("mobility", JSVal.num 4)]⟩

/-- A range-only taxonomy with the `accuracy` category. -/
def taxAccuracy : List Category := [⟨"accuracy", "range"⟩]

/-- The product of the text-search example: its id is
`hg-rx-78-2-revive`, and none of its five search fields contains the
dashless string `rx78`. -/
def prodRx78 : Product :=
  ⟨"RX-78-2 Gundam", "hg-rx-78-2-revive", some "HGUC 191", "HG", "uc", [], []⟩

/-- The state produced by `setRangeFilter` with a negative minimum: its
serialization `-1-5` cannot be re-parsed correctly. -/
def stNegRange : FilterState :=
  setRangeFilter ⟨"", []⟩ "mobility" (some (-1)) (some 5)

/-- A two-category taxonomy: enum `difficulty`, range `mobility`. -/
def taxTwo : List Category :=
  [⟨"difficulty", "enum"⟩, ⟨"mobility", "range"⟩]

/-- A URL-representable filter state: a query, an enum selection and a
nonnegative range. -/
def stGood : FilterState :=
  ⟨"kit", [("difficulty", Selection.vals [JSVal.str "beginner", JSVal.str "advanced"]),
    ("mobility", Selection.range (some 1) (some 5))]⟩

/-- A product carrying a value for a category id that is absent from the
weight table. -/
def prodFuture : Product :=
  ⟨"RX-93 Nu Gundam", "rg-nu", none, "RG", "cca", [],
    [("paintLevel", JSVal.str "heavy")]⟩

theorem string_mk_data (s : String) : String.mk s.data = s := by
  cases s
  rfl

theorem jsEq_eq {a b : JSVal} (h : jsEq a b = true) : a = b := by
  cases a <;> cases b <;> simp_all [jsEq]

mutual

theorem valEqB_refl : (a : JSVal) → valEqB a a = true
  | .str s => by simp [valEqB]
  | .num n => by simp [valEqB]
  | .nan => rfl
  | .boolv b => by simp [valEqB]
  | .arr l => valListEqB_refl l

theorem valListEqB_refl : (l : List JSVal) → valListEqB l l = true
  | [] => rfl
  | a :: as => by
    simp only [valListEqB, Bool.and_eq_true]
    exact ⟨valEqB_refl a, valListEqB_refl as⟩

end

theorem distinctValsB_nodup : ∀ l : List JSVal, distinctValsB l = true → l.Nodup := by
  intro l
  induction l with
  | nil => intro _; exact List.nodup_nil
  | cons v rest ih =>
    intro h
    simp only [distinctValsB, Bool.and_eq_true, Bool.not_eq_true'] at h
    refine List.nodup_cons.mpr ⟨?_, ih h.2⟩
    intro hmem
    have : rest.any (fun w => valEqB w v) = true :=
      List.any_eq_true.mpr ⟨v, hmem, valEqB_refl v⟩
    rw [this] at h
    exact absurd h.1 (by simp)

theorem splitOnChar_ne_nil (sep : Char) (l : List Char) :
    splitOnChar sep l ≠ [] := by
  cases l with
  | nil => simp [splitOnChar]
  | cons c t =>
    simp only [splitOnChar]
    rcases h : splitOnChar sep t with _ | ⟨g, gs⟩
    · simp
    · by_cases hc : c == sep <;> simp [hc]

theorem splitOnChar_not_mem (sep : Char) (l : List Char) (h : sep ∉ l) :
    splitOnChar sep l = [l] := by
  induction l with
  | nil => rfl
  | cons c t ih =>
    have hc : c ≠ sep := fun hh => h (hh ▸ List.mem_cons_self c t)
    have ht : sep ∉ t := fun hh => h (List.mem_cons_of_mem c hh)
    simp only [splitOnChar, ih ht]
    have : (c == sep) = false := beq_eq_false_iff_ne.mpr hc
    simp [this]

theorem splitOnChar_append (sep : Char) (xs ys : List Char) (h : sep ∉ xs) :
    splitOnChar sep (xs ++ sep :: ys) = xs :: splitOnChar sep ys := by
  induction xs with
  | nil =>
    obtain ⟨g, gs, hg⟩ := List.exists_cons_of_ne_nil (splitOnChar_ne_nil sep ys)
    simp [splitOnChar, hg]
  | cons x xs ih =>
    have hx : x ≠ sep := fun hh => h (hh ▸ List.mem_cons_self x xs)
    have hxs : sep ∉ xs := fun hh => h (List.mem_cons_of_mem x hh)
    have hxb : (x == sep) = false := beq_eq_false_iff_ne.mpr hx
    simp only [List.cons_append, splitOnChar, List.append_eq]
    rw [ih hxs]
    simp [hxb]

theorem digitChar_facts (d : Nat) (h : d < 10) :
    (digitChar d).isDigit = true ∧ (digitChar d).toNat - 48 = d ∧
      digitChar d ≠ '-' ∧ digitChar d ≠ ',' := by
  interval_cases d <;> exact ⟨by decide, by decide, by decide, by decide⟩

theorem natToCharsF_irrel (f1 : Nat) : ∀ f2 n : Nat, n < f1 → n < f2 →
    natToCharsF f1 n = natToCharsF f2 n := by
  induction f1 with
  | zero => intro f2 n h1; omega
  | succ f1 ih =>
    intro f2 n h1 h2
    cases f2 with
    | zero => omega
    | succ f2 =>
      simp only [natToCharsF]
      by_cases h10 : n < 10
      · simp [h10]
      · have hdiv : n / 10 < n := Nat.div_lt_self (by omega) (by omega)
        simp only [h10, if_false]
        rw [ih f2 (n / 10) (by omega) (by omega)]

theorem natToChars_unfold (n : Nat) :
    natToChars n =
      if n < 10 then [digitChar n]
      else natToChars (n / 10) ++ [digitChar (n % 10)] := by
  by_cases h10 : n < 10
  · simp [natToChars, natToCharsF, h10]
  · have hdiv : n / 10 < n := Nat.div_lt_self (by omega) (by omega)
    have step : natToChars n = natToCharsF n (n / 10) ++ [digitChar (n % 10)] := by
      have huf : natToCharsF (n + 1) n =
          if n < 10 then [digitChar n]
          else natToCharsF n (n / 10) ++ [digitChar (n % 10)] := rfl
      rw [natToChars, huf]
      simp [h10]
    rw [step, natToCharsF_irrel n (n / 10 + 1) (n / 10) (by omega) (by omega)]
    simp [h10, natToChars]

theorem natToChars_facts (n : Nat) :
    natToChars n ≠ [] ∧
      ∀ c ∈ natToChars n, c.isDigit = true ∧ c ≠ '-' ∧ c ≠ ',' := by
  induction n using Nat.strong_induction_on with
  | _ n ih =>
    rw [natToChars_unfold]
    by_cases h10 : n < 10
    · simp only [h10, if_true]
      refine ⟨by simp, ?_⟩
      intro c hc
      rw [List.mem_singleton] at hc
      subst hc
      obtain ⟨h1, _, h3, h4⟩ := digitChar_facts n h10
      exact ⟨h1, h3, h4⟩
    · have hdiv : n / 10 < n := Nat.div_lt_self (by omega) (by omega)
      obtain ⟨hne, hall⟩ := ih (n / 10) hdiv
      simp only [h10, if_false]
      refine ⟨by simp, ?_⟩
      intro c hc
      rcases List.mem_append.mp hc with hc | hc
      · exact hall c hc
      · rw [List.mem_singleton] at hc
        subst hc
        obtain ⟨h1, _, h3, h4⟩ := digitChar_facts (n % 10) (Nat.mod_lt n (by omega))
        exact ⟨h1, h3, h4⟩

theorem natToChars_foldl (n : Nat) :
    ∀ a : Nat, (natToChars n).foldl (fun a c => a * 10 + (c.toNat - 48)) a
      = a * 10 ^ (natToChars n).length + n := by
  induction n using Nat.strong_induction_on with
  | _ n ih =>
    intro a
    rw [natToChars_unfold]
    by_cases h10 : n < 10
    · simp only [h10, if_true, List.foldl_cons, List.foldl_nil, List.length_singleton]
      obtain ⟨_, h2, _, _⟩ := digitChar_facts n h10
      rw [h2]
      ring
    · have hdiv : n / 10 < n := Nat.div_lt_self (by omega) (by omega)
      simp only [h10, if_false, List.foldl_append, List.foldl_cons, List.foldl_nil,
        List.length_append, List.length_singleton]
      rw [ih (n / 10) hdiv a]
      obtain ⟨_, h2, _, _⟩ := digitChar_facts (n % 10) (Nat.mod_lt n (by omega))
      rw [h2]
      have hmod : n / 10 * 10 + n % 10 = n := by omega
      ring_nf
      omega

theorem jsNumber_natToChars (n : Nat) :
    jsNumberOfChars (natToChars n) = some (Int.ofNat n) := by
  obtain ⟨hne, hall⟩ := natToChars_facts n
  have hempty : (natToChars n).isEmpty = false := by
    cases h : natToChars n with
    | nil => exact absurd h hne
    | cons a t => simp
  have halld : (natToChars n).all (fun c => c.isDigit) = true :=
    List.all_eq_true.mpr (fun c hc => (hall c hc).1)
  simp only [jsNumberOfChars, hempty, halld, if_false, if_true, Bool.false_eq_true]
  have := natToChars_foldl n 0
  simp only [Nat.zero_mul, Nat.zero_add] at this
  rw [parseNatChars, this]

theorem jsNumber_intToChars (a : Int) (h : 0 ≤ a) :
    jsNumberOfChars (intToChars a) = some a := by
  have hneg : ¬ a < 0 := by omega
  simp only [intToChars, hneg, if_false]
  rw [jsNumber_natToChars]
  congr 1
  simpa using Int.toNat_of_nonneg h

theorem intToChars_nonneg_clean (a : Int) (h : 0 ≤ a) :
    ∀ c ∈ intToChars a, c ≠ '-' ∧ c ≠ ',' := by
  have hneg : ¬ a < 0 := by omega
  simp only [intToChars, hneg, if_false]
  intro c hc
  obtain ⟨_, h3, h4⟩ := (natToChars_facts a.toNat).2 c hc
  exact ⟨h3, h4⟩

theorem jsNumber_none_of_bad (seg : List Char)
    (h : seg.any (fun c => !jsNumericLitChar c) = true) :
    jsNumberOfChars seg = none := by
  obtain ⟨c, hc, hbad⟩ := List.any_eq_true.mp h
  rw [Bool.not_eq_true'] at hbad
  have hne : seg.isEmpty = false := by
    rcases seg with _ | _
    · exact absurd hc (List.not_mem_nil c)
    · rfl
  have hcnd : c.isDigit = false := by
    rcases hd : c.isDigit with _ | _
    · rfl
    · have : jsNumericLitChar c = true := by
        simp [jsNumericLitChar, hd]
      rw [this] at hbad
      exact absurd hbad (by simp)
  have halld : seg.all (fun c => c.isDigit) = false := by
    rcases hall : seg.all (fun c => c.isDigit) with _ | _
    · rfl
    · have := List.all_eq_true.mp hall c hc
      rw [this] at hcnd
      exact absurd hcnd (by simp)
  simp [jsNumberOfChars, hne, halld]

theorem jsArrChars_cons_cons (v w : JSVal) (rest : List JSVal) :
    jsArrChars (v :: w :: rest) = jsValChars v ++ ',' :: jsArrChars (w :: rest) := rfl

theorem splitJoin_strVals : ∀ l : List JSVal, l ≠ [] →
    (∀ v ∈ l, ∃ s : String, v = .str s ∧ ',' ∉ s.data) →
    (splitOnChar ',' (jsArrChars l)).map (fun cs => JSVal.str (String.mk cs)) = l := by
  intro l
  induction l with
  | nil => intro h; exact absurd rfl h
  | cons v rest ih =>
    intro _ hstr
    obtain ⟨s, hv, hcomma⟩ := hstr v (List.mem_cons_self v rest)
    subst hv
    cases rest with
    | nil =>
      have : jsArrChars [JSVal.str s] = s.data := rfl
      rw [this, splitOnChar_not_mem ',' s.data hcomma]
      simp [string_mk_data]
    | cons w rest2 =>
      rw [jsArrChars_cons_cons]
      have hv : jsValChars (JSVal.str s) = s.data := rfl
      rw [hv, splitOnChar_append ',' s.data (jsArrChars (w :: rest2)) hcomma]
      rw [List.map_cons, string_mk_data]
      rw [ih (by simp) (fun x hx => hstr x (List.mem_cons_of_mem _ hx))]

theorem setKey_fresh (m : List (String × Selection)) (k : String) (v : Selection)
    (h : ∀ e ∈ m, e.1 ≠ k) : setKey m k v = m ++ [(k, v)] := by
  have : m.any (fun e => e.1 == k) = false := by
    rw [List.any_eq_false]
    intro e he
    simp [h e he]
  simp [setKey, this]

theorem serEntry_key (e : String × Selection) (p : String × String)
    (h : serEntry e = some p) : p.1 = e.1 := by
  rcases e with ⟨k, sel⟩
  cases sel with
  | vals l =>
    by_cases hl : l.length > 0
    · simp only [serEntry, hl, if_true, Option.some.injEq] at h
      rw [← h]
    · simp [serEntry, hl] at h
  | range mn mx =>
    simp only [serEntry, Option.some.injEq] at h
    rw [← h]

theorem serEntry_of_good (tax : List Category) (e : String × Selection)
    (hg : goodEntryB tax e = true) : ∃ p, serEntry e = some p := by
  rcases e with ⟨k, sel⟩
  cases sel with
  | vals l =>
    rcases hfind : tax.find? (fun cat => cat.id == k) with _ | cat
    · simp [goodEntryB, hfind] at hg
    · simp only [goodEntryB, hfind, Bool.and_eq_true, bne_iff_ne] at hg
      have hlen : l.length > 0 := by
        rcases l with _ | ⟨a, t⟩
        · simp at hg
        · simp
      exact ⟨(k, String.mk (jsArrChars l)), by simp [serEntry, hlen]⟩
  | range mn mx => exact ⟨(k, String.mk (numChars mn ++ '-' :: numChars mx)), rfl⟩

theorem restoreStep_q (tax : List Category) (s : FilterState) (v : String) :
    restoreStep tax s ("q", v) = s := rfl

theorem restoreStep_good (tax : List Category) (s : FilterState)
    (e : String × Selection) (p : String × String)
    (hg : goodEntryB tax e = true) (hs : serEntry e = some p) :
    restoreStep tax s p
      = { s with activeFilters := setKey s.activeFilters e.1 e.2 } := by
  rcases e with ⟨k, sel⟩
  rcases hfind : tax.find? (fun cat => cat.id == k) with _ | cat
  · simp [goodEntryB, hfind] at hg
  cases sel with
  | range mn mx =>
    rcases mn with _ | a
    · simp [goodEntryB, hfind] at hg
    rcases mx with _ | b
    · simp [goodEntryB, hfind] at hg
    simp only [goodEntryB, hfind, Bool.and_eq_true, bne_iff_ne, beq_iff_eq,
      decide_eq_true_eq, and_assoc] at hg
    obtain ⟨hkq, htype, ha, hb⟩ := hg
    simp only [serEntry] at hs
    have hp : p = (k, String.mk (numChars (some a) ++ '-' :: numChars (some b))) :=
      (Option.some.inj hs).symm
    subst hp
    have hkqb : (k == "q") = false := beq_eq_false_iff_ne.mpr hkq
    have hic : numChars (some a) = intToChars a := rfl
    have hdash : (String.mk (numChars (some a) ++ '-' :: numChars (some b))).data.contains '-'
        = true := by
      apply List.elem_eq_true_of_mem
      simp
    simp only [restoreStep, hkqb, Bool.false_eq_true, if_false, hfind, htype,
      beq_self_eq_true, Bool.true_and, hdash, if_true]
    have hnm : ('-' : Char) ∉ intToChars a :=
      fun hmem => ((intToChars_nonneg_clean a ha) '-' hmem).1 rfl
    have hsplit : splitOnChar '-' (String.mk (numChars (some a) ++ '-' :: numChars (some b))).data
        = [intToChars a, intToChars b] := by
      have hdata : (String.mk (numChars (some a) ++ '-' :: numChars (some b))).data
          = intToChars a ++ '-' :: intToChars b := rfl
      rw [hdata, splitOnChar_append '-' (intToChars a) (intToChars b) hnm]
      have hnb : ('-' : Char) ∉ intToChars b :=
        fun hmem => ((intToChars_nonneg_clean b hb) '-' hmem).1 rfl
      rw [splitOnChar_not_mem '-' (intToChars b) hnb]
    rw [hsplit]
    simp [jsNumber_intToChars a ha, jsNumber_intToChars b hb]
  | vals l =>
    simp only [goodEntryB, hfind, Bool.and_eq_true, bne_iff_ne, and_assoc] at hg
    obtain ⟨hkq, htype, hne, hall⟩ := hg
    have hlen : l.length > 0 := by
      rcases l with _ | ⟨a, t⟩
      · simp at hne
      · simp
    simp only [serEntry, hlen, if_true] at hs
    have hp : p = (k, String.mk (jsArrChars l)) := (Option.some.inj hs).symm
    subst hp
    have hkqb : (k == "q") = false := beq_eq_false_iff_ne.mpr hkq
    have htypeb : (cat.type == "range") = false := by
      rcases h2 : cat.type == "range" with _ | _
      · rfl
      · exact absurd (beq_iff_eq.mp h2) htype
    simp only [restoreStep, hkqb, Bool.false_eq_true, if_false, hfind, htypeb,
      Bool.false_and, if_false]
    have hstr : ∀ v ∈ l, ∃ s : String, v = .str s ∧ ',' ∉ s.data := by
      intro v hv
      have := List.all_eq_true.mp hall v hv
      rcases v with s | n | _ | b | l2 <;> simp_all
    rw [splitJoin_strVals l (by rcases l with _ | _ <;> simp_all) hstr]

theorem restore_fold (tax : List Category) :
    ∀ (es : List (String × Selection)) (acc : FilterState),
      es.all (goodEntryB tax) = true →
      (es.map Prod.fst).Nodup →
      (∀ e2 ∈ acc.activeFilters, ∀ k ∈ es.map Prod.fst, e2.1 ≠ k) →
      List.foldl (restoreStep tax) acc (es.filterMap serEntry)
        = { acc with activeFilters := acc.activeFilters ++ es } := by
  intro es
  induction es with
  | nil => intro acc _ _ _; simp
  | cons e rest ih =>
    intro acc hall hnodup hdisj
    rw [List.all_cons, Bool.and_eq_true] at hall
    obtain ⟨hg, hrest⟩ := hall
    obtain ⟨p, hp⟩ := serEntry_of_good tax e hg
    rw [List.map_cons, List.nodup_cons] at hnodup
    obtain ⟨hhead, htail⟩ := hnodup
    have hfreshA : ∀ e2 ∈ acc.activeFilters, e2.1 ≠ e.1 := by
      intro e2 he2
      exact hdisj e2 he2 e.1 (by simp)
    rw [List.filterMap_cons, hp, List.foldl_cons,
      restoreStep_good tax acc e p hg hp, setKey_fresh acc.activeFilters e.1 e.2 hfreshA]
    have hdisj2 : ∀ e2 ∈ ({ acc with
        activeFilters := acc.activeFilters ++ [(e.1, e.2)] } : FilterState).activeFilters,
        ∀ k ∈ rest.map Prod.fst, e2.1 ≠ k := by
      intro e2 he2 k hk
      rcases List.mem_append.mp he2 with h2 | h2
      · exact hdisj e2 h2 k (by simp [hk])
      · rw [List.mem_singleton] at h2
        subst h2
        intro hcontra
        exact hhead (hcontra ▸ hk)
    rw [ih _ hrest htail hdisj2]
    simp

theorem serKeys_ne_q (tax : List Category) (es : List (String × Selection))
    (hgood : es.all (goodEntryB tax) = true) :
    ∀ p ∈ es.filterMap serEntry, (p.1 == "q") = false := by
  intro p hp
  obtain ⟨e, he, hse⟩ := List.mem_filterMap.mp hp
  have hk : p.1 = e.1 := serEntry_key e p hse
  have hg := List.all_eq_true.mp hgood e he
  rw [goodEntryB, Bool.and_eq_true, bne_iff_ne] at hg
  rw [hk]
  exact beq_eq_false_iff_ne.mpr hg.1

theorem roundtrip_filters (tax : List Category) (s : FilterState)
    (hnodup : (s.activeFilters.map Prod.fst).Nodup)
    (hgood : s.activeFilters.all (goodEntryB tax) = true) :
    (restoreFromURL tax ⟨"", []⟩ (serializeFilters s)).activeFilters
      = s.activeFilters := by
  have hkeys := serKeys_ne_q tax s.activeFilters hgood
  by_cases hq : s.searchQuery == ""
  · have hser : serializeFilters s = s.activeFilters.filterMap serEntry := by
      simp [serializeFilters, hq]
    have hfindq : (s.activeFilters.filterMap serEntry).find? (fun e => e.1 == "q")
        = none := by
      rw [List.find?_eq_none]
      intro p hp
      simp [hkeys p hp]
    rw [restoreFromURL, hser, hfindq]
    rw [restore_fold tax s.activeFilters ⟨"", []⟩ hgood hnodup (by simp)]
    simp
  · have hser : serializeFilters s
        = ("q", s.searchQuery) :: s.activeFilters.filterMap serEntry := by
      simp [serializeFilters, hq]
    rw [restoreFromURL, hser]
    have hfindq : (("q", s.searchQuery) :: s.activeFilters.filterMap serEntry).find?
        (fun e => e.1 == "q") = some ("q", s.searchQuery) := by
      simp [List.find?_cons]
    rw [hfindq, List.foldl_cons, restoreStep_q]
    rw [restore_fold tax s.activeFilters ⟨s.searchQuery, []⟩ hgood hnodup (by simp)]
    simp

theorem all_setKey {m : List (String × Selection)} {k : String} {v : Selection}
    (hm : m.all selOkB = true) (hv : selOkB (k, v) = true) :
    (setKey m k v).all selOkB = true := by
  unfold setKey
  by_cases h : m.any (fun e => e.1 == k) = true
  · rw [if_pos h, List.all_eq_true]
    intro e he
    obtain ⟨e0, he0, heq⟩ := List.mem_map.mp he
    by_cases h0 : e0.1 == k
    · simp only [h0, if_true] at heq
      exact heq ▸ hv
    · simp only [h0, Bool.false_eq_true, if_false] at heq
      exact heq ▸ List.all_eq_true.mp hm e0 he0
  · rw [if_neg h, List.all_append]
    simp [hm, hv]

theorem all_delKey {m : List (String × Selection)} {k : String}
    (hm : m.all selOkB = true) : (delKey m k).all selOkB = true := by
  rw [List.all_eq_true]
  intro e he
  exact List.all_eq_true.mp hm e (List.mem_of_mem_filter he)

theorem getKey_mem {m : List (String × Selection)} {k : String} {sel : Selection}
    (h : getKey m k = some sel) : ∃ e ∈ m, e.2 = sel := by
  unfold getKey at h
  rcases hf : m.find? (fun e => e.1 == k) with _ | e
  · rw [hf] at h
    exact absurd h (by simp)
  · rw [hf] at h
    exact ⟨e, List.mem_of_find?_eq_some hf, by simpa using h⟩

theorem setFilter_inv {s : FilterState} {c : String} {v : JSVal} {b : Bool}
    {s2 : FilterState} (hs : stateInvB s = true)
    (h : setFilter s c v b = some s2) : stateInvB s2 = true := by
  unfold setFilter at h
  rcases hget : getKey s.activeFilters c with _ | sel
  · rw [hget] at h
    simp only at h
    by_cases hb : b
    · subst hb
      simp only [if_true] at h
      have h2 : s2 = { s with activeFilters := setKey s.activeFilters c (.vals [v]) } := by
        simp only [List.any_nil, Bool.false_eq_true, if_false, List.nil_append] at h
        exact (Option.some.inj h).symm
      subst h2
      exact all_setKey hs (by simp [selOkB])
    · simp only [hb, if_false] at h
      simp only [List.filter_nil, List.length_nil] at h
      have h2 : s2 = { s with activeFilters := delKey s.activeFilters c } :=
        (Option.some.inj (by simpa using h)).symm
      subst h2
      exact all_delKey hs
  · rw [hget] at h
    cases sel with
    | range mn mx => simp at h
    | vals l =>
      obtain ⟨e0, he0, hsel⟩ := getKey_mem hget
      have hok : selOkB e0 = true := List.all_eq_true.mp hs e0 he0
      have hlne : l ≠ [] := by
        rcases e0 with ⟨k0, sel0⟩
        simp only at hsel
        subst hsel
        simp only [selOkB] at hok
        rcases l with _ | _
        · simp at hok
        · simp
      simp only at h
      by_cases hb : b
      · subst hb
        simp only [if_true] at h
        by_cases hany : l.any (fun w => jsEq w v) = true
        · simp only [hany, if_true] at h
          have h2 : s2 = { s with activeFilters := setKey s.activeFilters c (.vals l) } :=
            (Option.some.inj h).symm
          subst h2
          exact all_setKey hs (by simp [selOkB, hlne])
        · simp only [Bool.not_eq_true] at hany
          simp only [hany, Bool.false_eq_true, if_false] at h
          have h2 : s2 = { s with activeFilters := setKey s.activeFilters c (.vals (l ++ [v])) } :=
            (Option.some.inj h).symm
          subst h2
          exact all_setKey hs (by simp [selOkB])
      · simp only [hb, if_false] at h
        by_cases hlen : (l.filter (fun w => !(jsEq w v))).length == 0
        · simp only [hlen, if_true] at h
          have h2 : s2 = { s with activeFilters := delKey s.activeFilters c } :=
            (Option.some.inj h).symm
          subst h2
          exact all_delKey hs
        · simp only [hlen, Bool.false_eq_true, if_false] at h
          have h2 : s2 = { s with activeFilters := setKey s.activeFilters c (.vals (l.filter (fun w => !(jsEq w v)))) } :=
            (Option.some.inj h).symm
          subst h2
          refine all_setKey hs ?_
          simp only [selOkB]
          rcases hfil : l.filter (fun w => !(jsEq w v)) with _ | _
          · rw [hfil] at hlen
            simp at hlen
          · simp

theorem toggleFilter_inv {s : FilterState} {c : String} {v : JSVal}
    {s2 : FilterState} (hs : stateInvB s = true)
    (h : toggleFilter s c v = some s2) : stateInvB s2 = true := by
  unfold toggleFilter at h
  rcases hget : getKey s.activeFilters c with _ | sel
  · rw [hget] at h
    exact setFilter_inv hs h
  · rw [hget] at h
    cases sel with
    | range mn mx => simp at h
    | vals l => exact setFilter_inv hs h

theorem removeFilter_inv {s : FilterState} {c : String} {v : Option JSVal}
    {s2 : FilterState} (hs : stateInvB s = true)
    (h : removeFilter s c v = some s2) : stateInvB s2 = true := by
  unfold removeFilter at h
  cases v with
  | some w => exact setFilter_inv hs h
  | none =>
    have h2 : s2 = { s with activeFilters := delKey s.activeFilters c } :=
      (Option.some.inj h).symm
    subst h2
    exact all_delKey hs

theorem restoreStep_inv (tax : List Category) {s : FilterState}
    (e : String × String) (hs : stateInvB s = true) :
    stateInvB (restoreStep tax s e) = true := by
  unfold restoreStep
  split
  · exact hs
  split
  · exact hs
  split
  · split <;> exact all_setKey hs rfl
  · refine all_setKey hs ?_
    simp only [selOkB]
    rcases hsp : splitOnChar ',' e.2.data with _ | _
    · exact absurd hsp (splitOnChar_ne_nil ',' e.2.data)
    · simp

theorem foldl_restore_inv (tax : List Category) :
    ∀ (params : List (String × String)) (s : FilterState),
      stateInvB s = true →
      stateInvB (params.foldl (restoreStep tax) s) = true := by
  intro params
  induction params with
  | nil => intro s hs; exact hs
  | cons p rest ih => intro s hs; exact ih _ (restoreStep_inv tax p hs)

theorem restoreFromURL_inv (tax : List Category) (params : List (String × String))
    {s : FilterState} (hs : stateInvB s = true) :
    stateInvB (restoreFromURL tax s params) = true := by
  unfold restoreFromURL
  apply foldl_restore_inv
  split
  · exact hs
  · exact hs

theorem categoryWeights_pos : ∀ x ∈ categoryWeights, (0 : ℚ) < x.2 := by
  intro x hx
  fin_cases hx <;> norm_num

theorem weightOf_pos (c : String) : 0 < weightOf c := by
  unfold weightOf
  rcases hf : categoryWeights.find? (fun e => e.1 == c) with _ | e
  · rw [hf]
    norm_num
  · rw [hf]
    show 0 < if e.2 == 0 then (1 : ℚ) else e.2
    by_cases h0 : e.2 == 0
    · simp only [h0, if_true]
      norm_num
    · simp only [h0, Bool.false_eq_true, if_false]
      exact categoryWeights_pos e (List.mem_of_find?_eq_some hf)

theorem credit_def_none {p : Product} {c : String} {sel : Selection} {w : ℚ}
    (h : productValue p c = none) : credit p c sel w = 0 := by
  unfold credit
  rw [h]

theorem credit_def_range {p : Product} {c : String} {mn mx : Option Int}
    {w : ℚ} {pv : JSVal} (h : productValue p c = some pv) :
    credit p c (.range mn mx) w = if jsGeB pv mn && jsLeB pv mx then w else 0 := by
  unfold credit
  rw [h]

theorem credit_def_vals_arr {p : Product} {c : String} {fl pvl : List JSVal}
    {w : ℚ} (h : productValue p c = some (.arr pvl)) :
    credit p c (.vals fl) w
      = w * (((pvl.filter (fun v => fl.any (fun w0 => jsEq w0 v))).length : ℚ)
          / (fl.length : ℚ)) := by
  unfold credit
  rw [h]

theorem credit_def_vals_scalar {p : Product} {c : String} {fl : List JSVal}
    {w : ℚ} {pv : JSVal} (h : productValue p c = some pv)
    (hna : ∀ l, pv ≠ .arr l) :
    credit p c (.vals fl) w = if fl.any (fun w0 => jsEq w0 pv) then w else 0 := by
  unfold credit
  rw [h]
  cases pv with
  | arr l => exact absurd rfl (hna l)
  | str s => rfl
  | num n => rfl
  | nan => rfl
  | boolv b => rfl

theorem credit_nonneg (p : Product) (c : String) (sel : Selection) (w : ℚ)
    (hw : 0 < w) : 0 ≤ credit p c sel w := by
  rcases hpv : productValue p c with _ | pv
  · rw [credit_def_none hpv]
  · cases sel with
    | range mn mx =>
      rw [credit_def_range hpv]
      split
      · exact hw.le
      · exact le_refl 0
    | vals fl =>
      cases pv with
      | arr pvl =>
        rw [credit_def_vals_arr hpv]
        positivity
      | str s =>
        rw [credit_def_vals_scalar hpv (fun l => by simp)]
        split
        · exact hw.le
        · exact le_refl 0
      | num n =>
        rw [credit_def_vals_scalar hpv (fun l => by simp)]
        split
        · exact hw.le
        · exact le_refl 0
      | nan =>
        rw [credit_def_vals_scalar hpv (fun l => by simp)]
        split
        · exact hw.le
        · exact le_refl 0
      | boolv b =>
        rw [credit_def_vals_scalar hpv (fun l => by simp)]
        split
        · exact hw.le
        · exact le_refl 0

theorem credit_le (p : Product) (c : String) (sel : Selection) (w : ℚ)
    (hw : 0 < w)
    (hdup : ∀ l, productValue p c = some (.arr l) → distinctValsB l = true)
    (hsel : ∀ l, sel = Selection.vals l → l ≠ []) :
    credit p c sel w ≤ w := by
  rcases hpv : productValue p c with _ | pv
  · rw [credit_def_none hpv]
    exact hw.le
  · cases sel with
    | range mn mx =>
      rw [credit_def_range hpv]
      split
      · exact le_refl w
      · exact hw.le
    | vals fl =>
      have hfl : fl ≠ [] := hsel fl rfl
      have hfllen : 0 < (fl.length : ℚ) := by
        have : 0 < fl.length := List.length_pos.mpr hfl
        exact_mod_cast this
      cases pv with
      | arr pvl =>
        rw [credit_def_vals_arr hpv]
        have hnodup : pvl.Nodup := distinctValsB_nodup pvl (hdup pvl hpv)
        have hsub : pvl.filter (fun v => fl.any (fun w0 => jsEq w0 v)) ⊆ fl := by
          intro x hx
          have hpred := List.of_mem_filter hx
          obtain ⟨w0, hw0, hjs⟩ := List.any_eq_true.mp hpred
          exact (jsEq_eq hjs) ▸ hw0
        have hnodupO : (pvl.filter (fun v => fl.any (fun w0 => jsEq w0 v))).Nodup :=
          hnodup.filter _
        have hlen : (pvl.filter (fun v => fl.any (fun w0 => jsEq w0 v))).length
            ≤ fl.length := (hnodupO.subperm hsub).length_le
        have hdiv : ((pvl.filter (fun v => fl.any (fun w0 => jsEq w0 v))).length : ℚ)
            / (fl.length : ℚ) ≤ 1 := by
          rw [div_le_one hfllen]
          exact_mod_cast hlen
        calc w * (((pvl.filter (fun v => fl.any (fun w0 => jsEq w0 v))).length : ℚ)
              / (fl.length : ℚ))
            ≤ w * 1 := mul_le_mul_of_nonneg_left hdiv hw.le
          _ = w := mul_one w
      | str s =>
        rw [credit_def_vals_scalar hpv (fun l => by simp)]
        split
        · exact le_refl w
        · exact hw.le
      | num n =>
        rw [credit_def_vals_scalar hpv (fun l => by simp)]
        split
        · exact le_refl w
        · exact hw.le
      | nan =>
        rw [credit_def_vals_scalar hpv (fun l => by simp)]
        split
        · exact le_refl w
        · exact hw.le
      | boolv b =>
        rw [credit_def_vals_scalar hpv (fun l => by simp)]
        split
        · exact le_refl w
        · exact hw.le

theorem totalWeight_nonneg (fs : List (String × Selection)) :
    0 ≤ totalWeight fs := by
  apply List.sum_nonneg
  intro x hx
  obtain ⟨e, _, he⟩ := List.mem_map.mp hx
  exact he ▸ (weightOf_pos e.1).le

theorem totalWeight_pos (fs : List (String × Selection)) (h : fs ≠ []) :
    0 < totalWeight fs := by
  rcases fs with _ | ⟨e, rest⟩
  · exact absurd rfl h
  · unfold totalWeight
    rw [List.map_cons, List.sum_cons]
    have h1 := weightOf_pos e.1
    have h2 := totalWeight_nonneg rest
    unfold totalWeight at h2
    linarith

theorem matchedWeight_nonneg (p : Product) (fs : List (String × Selection)) :
    0 ≤ matchedWeight p fs := by
  apply List.sum_nonneg
  intro x hx
  obtain ⟨e, _, he⟩ := List.mem_map.mp hx
  exact he ▸ credit_nonneg p e.1 e.2 (weightOf e.1) (weightOf_pos e.1)

theorem matched_le_total (p : Product) (fs : List (String × Selection))
    (hok : fs.all (entryOkB p) = true) :
    matchedWeight p fs ≤ totalWeight fs := by
  unfold matchedWeight totalWeight
  apply List.sum_le_sum
  intro e he
  have hE := List.all_eq_true.mp hok e he
  rw [entryOkB, Bool.and_eq_true] at hE
  apply credit_le p e.1 e.2 (weightOf e.1) (weightOf_pos e.1)
  · intro l hl
    have h1 := hE.1
    rw [hl] at h1
    exact h1
  · intro l hl
    have h2 := hE.2
    rw [hl] at h2
    rcases l with _ | _
    · simp at h2
    · simp

theorem mathRound_nonneg {q : ℚ} (h : 0 ≤ q) : 0 ≤ mathRound q := by
  unfold mathRound
  apply Int.floor_nonneg.mpr
  linarith

theorem mathRound_le_100 {q : ℚ} (h : q ≤ 100) : mathRound q ≤ 100 := by
  unfold mathRound
  by_contra hc
  push_neg at hc
  have h101 : (101 : ℤ) ≤ ⌊q + 1/2⌋ := hc
  have : (101 : ℚ) ≤ q + 1/2 := by exact_mod_cast Int.le_floor.mp h101
  linarith

/-- C1 (counterexample): with the range filter mobility 3..5 active and a
product that has no mobility value at all, `matchesFilters` returns
`true` — the claim states the product is excluded (`false`).  In
JavaScript, `undefined < 3` and `undefined > 5` are both false, so the
range check never fires. -/
theorem C1_counterexample :
    matchesFilters taxMobility stMobilityRange prodNoMobility = true := by
  decide

/-- C1 (amended): for a category of type `range` with active selection
`{min: a, max: b}` as the sole filter, a product whose value for the
category is the number `n` matches exactly when `a ≤ n ≤ b` (inclusive
both ends); a product with a missing/undefined value always matches (it is
not excluded). -/
theorem C1_range_semantics (tax : List Category) (p : Product) (c : String)
    (a b n : Int) (cat : Category)
    (hfind : tax.find? (fun c0 => c0.id == c) = some cat)
    (htype : cat.type = "range") :
    (productValue p c = some (.num n) →
      (matchesFilters tax ⟨"", [(c, .range (some a) (some b))]⟩ p = true
        ↔ (a ≤ n ∧ n ≤ b)))
    ∧ (productValue p c = none →
        matchesFilters tax ⟨"", [(c, .range (some a) (some b))]⟩ p = true) := by
  have hm : matchesFilters tax ⟨"", [(c, .range (some a) (some b))]⟩ p
      = entryMatches tax p c (.range (some a) (some b)) := by
    simp [matchesFilters]
  constructor
  · intro hpv
    rw [hm]
    unfold entryMatches
    rw [hfind]
    simp [htype, jsLtB, jsGtB, hpv, toNumber]
  · intro hpv
    rw [hm]
    unfold entryMatches
    rw [hfind]
    simp [htype, jsLtB, jsGtB, hpv]

/-- C1 (witness): the amended statement instantiated at the mobility 3..5
filter, once with a product whose mobility is 4 and once with the missing
value reading. -/
theorem C1_range_semantics_witness :
    (productValue prodMobility4 "mobility" = some (.num 4) →
      (matchesFilters taxMobility
          ⟨"", [("mobility", .range (some 3) (some 5))]⟩ prodMobility4 = true
        ↔ ((3 : Int) ≤ 4 ∧ (4 : Int) ≤ 5)))
    ∧ (productValue prodMobility4 "mobility" = none →
        matchesFilters taxMobility
          ⟨"", [("mobility", .range (some 3) (some 5))]⟩ prodMobility4 = true) :=
  C1_range_semantics taxMobility prodMobility4 "mobility" 3 5 4
    ⟨"mobility", "range"⟩ rfl rfl

/-- C2 (counterexample): a product with difficulty `beginner` and no
mobility value scores 55 against the filters
`{difficulty: [beginner], mobility: {min:3, max:5}}` but 100 against
`{difficulty: [beginner]}` alone — the category the product lacks changed
the score, contradicting the claim that it contributes zero to
`totalWeight` and leaves the score unaffected. -/
theorem C2_counterexample :
    calculateMatchScore prodOnlyDifficulty filtersDiffMob = 55 ∧
      calculateMatchScore prodOnlyDifficulty filtersDiffOnly = 100 := by
  constructor
  · simp [calculateMatchScore, filtersDiffMob, prodOnlyDifficulty, totalWeight,
      matchedWeight, credit, weightOf, categoryWeights, productValue, productGet,
      lookupVal, mathRound, jsGeB, jsLeB, toNumber, jsEq]
    norm_num
  · simp [calculateMatchScore, filtersDiffOnly, prodOnlyDifficulty, totalWeight,
      matchedWeight, credit, weightOf, categoryWeights, productValue, productGet,
      lookupVal, mathRound, jsGeB, jsLeB, toNumber, jsEq]
    norm_num

/-- C2 (amended): a category for which the product has no value (neither a
top-level field nor a `filterData` entry) contributes its full weight to
`totalWeight` and zero to `matchedWeight` — the weight is added on line 39
of recommendation.js before the `undefined` check on line 43, so such a
category penalizes the score instead of being skipped. -/
theorem C2_missing_value_penalized (p : Product) (c : String) (sel : Selection)
    (fs : List (String × Selection)) (h : productValue p c = none) :
    totalWeight ((c, sel) :: fs) = weightOf c + totalWeight fs ∧
      matchedWeight p ((c, sel) :: fs) = matchedWeight p fs := by
  constructor
  · unfold totalWeight
    rw [List.map_cons, List.sum_cons]
  · unfold matchedWeight
    rw [List.map_cons, List.sum_cons, credit_def_none h]
    ring

/-- C2 (witness): the amended statement instantiated with the product that
lacks a mobility value. -/
theorem C2_missing_value_penalized_witness :
    totalWeight (("mobility", Selection.range (some 3) (some 5)) :: filtersDiffOnly)
        = weightOf "mobility" + totalWeight filtersDiffOnly ∧
      matchedWeight prodOnlyDifficulty
          (("mobility", Selection.range (some 3) (some 5)) :: filtersDiffOnly)
        = matchedWeight prodOnlyDifficulty filtersDiffOnly :=
  C2_missing_value_penalized prodOnlyDifficulty "mobility"
    (Selection.range (some 3) (some 5)) filtersDiffOnly rfl

/-- C5: when the product value for a category is an array and the active
selection for it is an array of length `|sel|`, the category adds exactly
`weight × (|overlap| / |sel|)` to `matchedWeight`, where the overlap keeps
the product entries that occur in the selection (the `filter`/`includes`
intersection of recommendation.js lines 49-50). -/
theorem C5_overlap_credit (p : Product) (c : String) (fl pvl : List JSVal)
    (fs : List (String × Selection)) (hpv : productValue p c = some (.arr pvl)) :
    matchedWeight p ((c, .vals fl) :: fs)
      = weightOf c * (((pvl.filter (fun v => fl.any (fun w => jsEq w v))).length : ℚ)
          / (fl.length : ℚ)) + matchedWeight p fs := by
  unfold matchedWeight
  rw [List.map_cons, List.sum_cons, credit_def_vals_arr hpv]

/-- C5 (witness): the overlap formula instantiated at the concrete example
of the claim — product `filterData.weaponCount = [many, standard]` against
the selection `[standard, few]`, where the overlap has length 1 and the
selection length 2, so the entry contributes `weight × 1/2`. -/
theorem C5_overlap_credit_witness :
    matchedWeight prodOverlap [("weaponCount", Selection.vals selOverlap)]
      = weightOf "weaponCount"
          * ((([JSVal.str "many", JSVal.str "standard"].filter
              (fun v => selOverlap.any (fun w => jsEq w v))).length : ℚ)
            / (selOverlap.length : ℚ))
        + matchedWeight prodOverlap [] :=
  C5_overlap_credit prodOverlap "weaponCount" selOverlap
    [JSVal.str "many", JSVal.str "standard"] [] rfl

/-- C6: with the built-in weight table (difficulty 3, mobility 2.5) and
the selection `{difficulty: [beginner], mobility: {min:3, max:5}}`,
product A (`difficulty: beginner, mobility: 4`) scores 100 and product B
(`difficulty: advanced, mobility: 4`) scores
`round(2.5 / 5.5 × 100) = 45`. -/
theorem C6_scenario_scores :
    calculateMatchScore prodScenarioA filtersDiffMob = 100 ∧
      calculateMatchScore prodScenarioB filtersDiffMob = 45 := by
  constructor
  · simp [calculateMatchScore, filtersDiffMob, prodScenarioA, totalWeight,
      matchedWeight, credit, weightOf, categoryWeights, productValue, productGet,
      lookupVal, mathRound, jsGeB, jsLeB, toNumber, jsEq]
    norm_num
  · simp [calculateMatchScore, filtersDiffMob, prodScenarioB, totalWeight,
      matchedWeight, credit, weightOf, categoryWeights, productValue, productGet,
      lookupVal, mathRound, jsGeB, jsLeB, toNumber, jsEq]
    norm_num

/-- C10: a category id absent from the weight table is scored with the
default weight 1 (`categoryWeights[categoryId] || 1`): it contributes 1 to
`totalWeight` and its credit to `matchedWeight` exactly like a weight-1
table entry — it is neither skipped nor weighted 0. -/
theorem C10_default_weight (c : String) (sel : Selection) (p : Product)
    (fs : List (String × Selection))
    (h : categoryWeights.find? (fun e => e.1 == c) = none) :
    weightOf c = 1
      ∧ totalWeight ((c, sel) :: fs) = 1 + totalWeight fs
      ∧ matchedWeight p ((c, sel) :: fs) = credit p c sel 1 + matchedWeight p fs := by
  have hw : weightOf c = 1 := by
    unfold weightOf
    rw [h]
    rfl
  refine ⟨hw, ?_, ?_⟩
  · unfold totalWeight
    rw [List.map_cons, List.sum_cons, hw]
  · unfold matchedWeight
    rw [List.map_cons, List.sum_cons, hw]

/-- C10 (witness): the default-weight statement instantiated at the
category id `paintLevel`, which the weight table does not mention. -/
theorem C10_default_weight_witness :
    weightOf "paintLevel" = 1
      ∧ totalWeight (("paintLevel", Selection.vals [JSVal.str "heavy"]) :: [])
          = 1 + totalWeight []
      ∧ matchedWeight prodFuture (("paintLevel", Selection.vals [JSVal.str "heavy"]) :: [])
          = credit prodFuture "paintLevel" (Selection.vals [JSVal.str "heavy"]) 1
            + matchedWeight prodFuture [] :=
  C10_default_weight "paintLevel" (Selection.vals [JSVal.str "heavy"]) prodFuture [] rfl

/-- C3 (counterexample): the state `setRangeFilter("mobility", -1, 5)` is
reachable through a public setter, serializes to `mobility=-1-5`, and
parses back to the range `{min: 0, max: 1}`: `"-1-5".split('-')` yields
`["", "1", "5"]` and `Number("") = 0`, `Number("1") = 1` — the restored
selection value is not equivalent to the original. -/
theorem C3_counterexample :
    Reachable stNegRange
      ∧ getKey stNegRange.activeFilters "mobility"
          = some (Selection.range (some (-1)) (some 5))
      ∧ getKey (restoreFromURL taxMobility ⟨"", []⟩
            (serializeFilters stNegRange)).activeFilters "mobility"
          = some (Selection.range (some 0) (some 1)) :=
  ⟨Reachable.setRange ⟨"", []⟩ "mobility" (some (-1)) (some 5) Reachable.empty,
    rfl, rfl⟩

/-- C3 (amended): serializing and re-parsing under the same taxonomy
restores the active category keys and selection values exactly, for every
filter state whose selections are URL-representable: keys are distinct,
occur in the taxonomy and differ from the reserved `q`; range selections
carry nonnegative integral bounds and sit exactly on range-typed
categories; array selections are non-empty lists of comma-free strings.
(Reachable states outside this set — e.g. a range with a negative bound,
see the counterexample — are not restored faithfully.) -/
theorem C3_roundtrip (tax : List Category) (s : FilterState)
    (hnodup : (s.activeFilters.map Prod.fst).Nodup)
    (hgood : s.activeFilters.all (goodEntryB tax) = true) :
    (restoreFromURL tax ⟨"", []⟩ (serializeFilters s)).activeFilters
      = s.activeFilters :=
  roundtrip_filters tax s hnodup hgood

/-- C3 (witness): the round trip instantiated at a state with a text
query, a two-value difficulty selection and the mobility range 1..5. -/
theorem C3_roundtrip_witness :
    (restoreFromURL taxTwo ⟨"", []⟩ (serializeFilters stGood)).activeFilters
      = stGood.activeFilters :=
  C3_roundtrip taxTwo stGood (by decide) (by decide)

/-- C4 (counterexample): a product whose `weaponCount` array repeats
`many` scores 200 against the selection `[many]`: the overlap keeps both
duplicate entries, so `matchedWeight = 1.5 × (2/1) = 3` against
`totalWeight = 1.5` — the score exceeds 100, contradicting the claimed
[0, 100] bound for arbitrary attribute arrays. -/
theorem C4_counterexample :
    calculateMatchScore prodDupWeapons filtersWeaponMany = 200 := by
  simp [calculateMatchScore, filtersWeaponMany, prodDupWeapons, totalWeight,
    matchedWeight, credit, weightOf, categoryWeights, productValue, productGet,
    lookupVal, mathRound, jsGeB, jsLeB, toNumber, jsEq]
  norm_num

/-- C4 (amended): the score is an integer in [0, 100] — and 0 whenever
`totalWeight` is 0 — provided every array-valued product attribute used by
an active category has pairwise distinct entries and every array selection
is non-empty (duplicate product entries overshoot 100, see the
counterexample; an empty selection array would divide by zero in the
JavaScript). -/
theorem C4_score_bounds (p : Product) (fs : List (String × Selection))
    (hok : fs.all (entryOkB p) = true) :
    0 ≤ calculateMatchScore p fs ∧ calculateMatchScore p fs ≤ 100 ∧
      (totalWeight fs = 0 → calculateMatchScore p fs = 0) := by
  unfold calculateMatchScore
  by_cases hnil : fs = []
  · subst hnil
    norm_num
  · have ht := totalWeight_pos fs hnil
    have hlenb : (fs.length == 0) = false := by
      rcases fs with _ | _
      · exact absurd rfl hnil
      · rfl
    have htb : (totalWeight fs == 0) = false :=
      beq_eq_false_iff_ne.mpr (ne_of_gt ht)
    rw [if_neg (by simp [hlenb]), if_neg (by simp [htb])]
    have hm0 := matchedWeight_nonneg p fs
    have hmt := matched_le_total p fs hok
    have hq0 : 0 ≤ matchedWeight p fs / totalWeight fs * 100 := by
      apply mul_nonneg (div_nonneg hm0 ht.le)
      norm_num
    have hq1 : matchedWeight p fs / totalWeight fs * 100 ≤ 100 := by
      have hd1 : matchedWeight p fs / totalWeight fs ≤ 1 := (div_le_one ht).mpr hmt
      nlinarith
    exact ⟨mathRound_nonneg hq0, mathRound_le_100 hq1,
      fun h0 => absurd h0 (ne_of_gt ht)⟩

/-- C4 (witness): the bounds instantiated at a product whose
`weaponCount` array holds two distinct values. -/
theorem C4_score_bounds_witness :
    0 ≤ calculateMatchScore prodOkWeapons filtersWeaponMany ∧
      calculateMatchScore prodOkWeapons filtersWeaponMany ≤ 100 ∧
      (totalWeight filtersWeaponMany = 0 →
        calculateMatchScore prodOkWeapons filtersWeaponMany = 0) :=
  C4_score_bounds prodOkWeapons filtersWeaponMany (by decide)

/-- C7 (counterexample): restoring `accuracy=abc-def` for the range-typed
category `accuracy` does not drop the key: the restored state maps
`accuracy` to `{min: NaN, max: NaN}` (`Number("abc") = NaN`), so the key
survives with NaN bounds instead of being ignored. -/
theorem C7_counterexample :
    (restoreFromURL taxAccuracy ⟨"", []⟩ [("accuracy", "abc-def")]).activeFilters
      = [("accuracy", Selection.range none none)] := rfl

/-- C7 (amended): a dash-containing value for a range-typed category whose
first two dash-separated segments each contain a printable ASCII character
that cannot occur in any string accepted by the JavaScript `Number`
conversion — so both segments convert to `NaN` — is stored, not dropped,
as the range `{min: NaN, max: NaN}`; that stored filter excludes no
product (both NaN comparisons are false), and the restore continues
normally with the remaining parameters. -/
theorem C7_nan_range_kept (tax : List Category) (cat : Category) (k v : String)
    (s : FilterState) (seg0 seg1 : List Char) (rest : List (List Char))
    (hfind : tax.find? (fun c0 => c0.id == k) = some cat)
    (htype : cat.type = "range")
    (hk : (k == "q") = false)
    (hdash : v.data.contains '-' = true)
    (hsplit : splitOnChar '-' v.data = seg0 :: seg1 :: rest)
    (h0 : seg0.any (fun c => !jsNumericLitChar c) = true)
    (h1 : seg1.any (fun c => !jsNumericLitChar c) = true) :
    restoreStep tax s (k, v)
        = { s with activeFilters := setKey s.activeFilters k (.range none none) }
      ∧ ∀ p, entryMatches tax p k (.range none none) = true := by
  have hrest : (splitOnChar '-' v.data).map jsNumberOfChars
      = none :: none :: rest.map jsNumberOfChars := by
    rw [hsplit, List.map_cons, List.map_cons,
      jsNumber_none_of_bad seg0 h0, jsNumber_none_of_bad seg1 h1]
  constructor
  · unfold restoreStep
    simp only [hk, Bool.false_eq_true, if_false, hfind, htype, hdash, hrest,
      beq_self_eq_true, Bool.and_self, if_true]
  · intro p
    unfold entryMatches
    simp only [hfind, htype, beq_self_eq_true, if_true]
    rcases productValue p k with _ | pv
    · rfl
    · cases pv <;> rfl

/-- C7 (witness): the amended statement instantiated at the value
`low-high` for the range category `accuracy`; both segments contain
letters (`l`, `w`, `h`, `g`) that no JavaScript-numeric string can
contain. -/
theorem C7_nan_range_kept_witness :
    restoreStep taxAccuracy ⟨"", []⟩ ("accuracy", "low-high")
        = { (⟨"", []⟩ : FilterState) with
            activeFilters := setKey [] "accuracy" (.range none none) }
      ∧ ∀ p, entryMatches taxAccuracy p "accuracy" (.range none none) = true :=
  C7_nan_range_kept taxAccuracy ⟨"accuracy", "range"⟩ "accuracy" "low-high"
    ⟨"", []⟩ "low".data "high".data [] rfl rfl rfl (by decide) (by decide)
    (by decide) (by decide)

/-- C8: every state reachable through the public mutation operations
(`setFilter`, `toggleFilter`, `setRangeFilter`, `removeFilter`,
`clearAllFilters`, `restoreFromURL`) satisfies the selections invariant:
every category id present in `activeFilters` carries at least one active
value — an array selection is never left empty (a category whose last
value is removed is deleted from the map). -/
theorem C8_selections_invariant (s : FilterState) (h : Reachable s) :
    stateInvB s = true := by
  induction h with
  | empty => rfl
  | search s q _ ih => exact ih
  | set s c v b s2 _ hset ih => exact setFilter_inv ih hset
  | toggle s c v s2 _ htog ih => exact toggleFilter_inv ih htog
  | setRange s c mn mx _ ih => exact all_setKey ih rfl
  | remove s c v s2 _ hrem ih => exact removeFilter_inv ih hrem
  | clear s _ => rfl
  | restore tax s params _ ih => exact restoreFromURL_inv tax params ih

/-- C8 (witness): the invariant instantiated at a state reached by one
`setRangeFilter` call from the initial empty state. -/
theorem C8_selections_invariant_witness :
    stateInvB (setRangeFilter ⟨"", []⟩ "mobility" (some 2) (some 4)) = true :=
  C8_selections_invariant _
    (Reachable.setRange ⟨"", []⟩ "mobility" (some 2) (some 4) Reachable.empty)

/-- C9 (counterexample): the query `rx78` does not match the product with
id `hg-rx-78-2-revive` — `"rx78"` is not a substring of any of the five
search fields (the id spells `rx-78` with a dash), so `matchesFilters`
returns `false` where the claim asserts a match. -/
theorem C9_counterexample :
    matchesFilters [] ⟨"rx78", []⟩ prodRx78 = false := by
  decide

/-- C9 (amended): with a non-empty query, `matchesFilters` returns true
exactly when the lower-cased query is a substring of one of the five
lower-cased search fields — display name, id, model number (empty when
absent), grade, series — and every active category check passes; in
particular a query matching no field excludes the product regardless of
the category filters.  (The query `rx78` does not match the id
`hg-rx-78-2-revive`; the dashed query `rx-78` does.) -/
theorem C9_search_substring (tax : List Category) (s : FilterState)
    (p : Product) (hq : s.searchQuery ≠ "") :
    matchesFilters tax s p = true ↔
      ((∃ f ∈ [p.name, p.id, p.modelNumber.getD "", p.grade, p.series],
          containsSeq (lowerStr f).data s.searchQuery.data = true)
        ∧ ∀ e ∈ s.activeFilters, entryMatches tax p e.1 e.2 = true) := by
  have hqb : (s.searchQuery == "") = false := beq_eq_false_iff_ne.mpr hq
  unfold matchesFilters searchMatches searchFields
  rw [if_neg (by simp [hqb])]
  simp [List.any_eq_true, List.all_eq_true]

/-- C9 (witness): the amended statement instantiated at the query `rx-78`
and the product with id `hg-rx-78-2-revive`. -/
theorem C9_search_substring_witness :
    matchesFilters [] ⟨"rx-78", []⟩ prodRx78 = true ↔
      ((∃ f ∈ [prodRx78.name, prodRx78.id, prodRx78.modelNumber.getD "",
          prodRx78.grade, prodRx78.series],
          containsSeq (lowerStr f).data ("rx-78" : String).data = true)
        ∧ ∀ e ∈ ([] : List (String × Selection)),
            entryMatches [] prodRx78 e.1 e.2 = true) :=
  C9_search_substring [] ⟨"rx-78", []⟩ prodRx78 (by decide)
